import Mathlib

/-!
Verification of the SoulSync core against its specification.

This file gives a shallow embedding, in Lean 4, of the three core subsystems
of the repository:

* the matching engine (`src/core/matching_engine.py`):
  string normalization, title/artist cleaning, similarity scoring,
  match-confidence calculation and best-match selection;
* the search-result pipeline (`src/core/soulseek_client.py`):
  parsing raw peer responses into track results, album aggregation,
  quality scoring, and the progressive search poll loop;
* the scan-debounce controller (`src/core/plex_scan_manager.py`):
  modelled as an explicit state machine with an action trace.

Python floats are embedded as rationals (`ℚ`), Python ints as `Int`
(or `Nat` for values that are always lengths/counts), Python strings as
`String` / `List Char`.  Stateful, timer-driven code is embedded as pure
transition functions over an explicit state record, producing a list of
externally visible actions.
-/

/-! ## Python character classes

`isPySpace` models Python's `\s` on ASCII text (the only text that
reaches these regexes after transliteration): space, tab, newline,
carriage return, vertical tab, form feed.  `isWordChar` models Python's
`\w` on ASCII text: letters, digits and the underscore. -/

def isPySpace (c : Char) : Bool :=
  c = ' ' || c = '\t' || c = '\n' || c = '\r' || c = '\x0b' || c = '\x0c'

def isWordChar (c : Char) : Bool :=
  c.isAlphanum || c = '_'

/-! ## unidecode model

The engine's `normalize_string` first calls `unidecode` (a third-party
dependency, not repository code).  Modelled from its documented
behaviour: ASCII characters map to themselves; non-ASCII characters are
transliterated to a (possibly empty) ASCII string.  A representative
table of transliterations is included; characters absent from the table
map to the empty string, as unidecode does for unmapped code points. -/

def unidecodeTable : List (Char × String) :=
  [('á', "a"), ('à', "a"), ('â', "a"), ('ä', "a"), ('ã', "a"), ('å', "a"),
   ('é', "e"), ('è', "e"), ('ê', "e"), ('ë', "e"),
   ('í', "i"), ('ì', "i"), ('î', "i"), ('ï', "i"),
   ('ó', "o"), ('ò', "o"), ('ô', "o"), ('ö', "o"), ('õ', "o"), ('ø', "o"),
   ('ú', "u"), ('ù', "u"), ('û', "u"), ('ü', "u"),
   ('ý', "y"), ('ñ', "n"), ('ç', "c"), ('ß', "ss"),
   ('Á', "A"), ('À', "A"), ('Ä', "A"), ('É', "E"), ('È', "E"),
   ('Í', "I"), ('Ó', "O"), ('Ö', "O"), ('Ú', "U"), ('Ü', "U"),
   ('Ñ', "N"), ('Ç', "C"),
   ('–', "-"), ('—', "--"), ('‘', "'"), ('’', "'"), ('“', "\""), ('”', "\""),
   ('…', "...")]

def unidecodeChar (c : Char) : String :=
  if c.toNat < 128 then String.singleton c
  else (((unidecodeTable.find? (fun e => e.1 = c)).map (fun e => e.2)).getD "")

def pyUnidecode (s : String) : String :=
  String.mk (s.data.flatMap (fun c => (unidecodeChar c).data))

/-- Python `str.lower()`; the inputs it receives here are ASCII (they have
been transliterated first), on which it agrees with `Char.toLower`. -/
def pyLower (s : String) : String :=
  String.mk (s.data.map Char.toLower)

/-- `re.sub(r'[^\w\s-]', '', text)`: keep word characters, whitespace and
hyphens, drop everything else. -/
def normFilter (cs : List Char) : List Char :=
  cs.filter (fun c => isWordChar c || isPySpace c || c = '-')

/-- `re.sub(r'\s+', ' ', text)`: collapse every maximal run of whitespace
characters into a single space. -/
def collapseWs : List Char → List Char
  | [] => []
  | [c] => if isPySpace c then [' '] else [c]
  | c :: d :: rest =>
    if isPySpace c && isPySpace d then collapseWs (d :: rest)
    else (if isPySpace c then ' ' else c) :: collapseWs (d :: rest)

/-- Python `str.strip()`: drop leading and trailing whitespace. -/
def dropTrailWhile (p : Char → Bool) (cs : List Char) : List Char :=
  (cs.reverse.dropWhile p).reverse

def pyStrip (cs : List Char) : List Char :=
  dropTrailWhile isPySpace (cs.dropWhile isPySpace)

/-- `MusicMatchingEngine.normalize_string` (matching_engine.py lines 51-71):
transliterate to ASCII, lowercase, strip characters outside `[^\w\s-]`,
collapse whitespace runs, trim.  Empty input returns the empty string. -/
def normalize_string (text : String) : String :=
  if text = "" then ""
  else String.mk (pyStrip (collapseWs (normFilter ((pyLower (pyUnidecode text)).data))))

/-! ## Pattern stripping for titles and artists

`clean_title` and `clean_artist` apply a fixed list of `re.sub` patterns
(case-insensitive) followed by `.strip()` after each, then normalize.
Each pattern is embedded by a dedicated executable function.  Patterns
use `.`/`.*` which in Python does not cross a newline; titles and artist
names are newline-free, and the embedding treats `.` as any character. -/

/-- Case-insensitive "starts with" (ASCII case folding, as the
`re.IGNORECASE` patterns here only contain ASCII letters). -/
def ciStartsWith : List Char → List Char → Bool
  | _, [] => true
  | [], _ :: _ => false
  | c :: cs, p :: ps => (c.toLower = p.toLower) && ciStartsWith cs ps

/-- After a matched `-`, try to match `\s*word`; on success return the
remainder of the string after the matched span. -/
def matchWsWord (word cs : List Char) : Option (List Char) :=
  let rest := cs.dropWhile isPySpace
  if ciStartsWith rest word then some (rest.drop word.length) else none

/-- `re.sub(r'-\s*word', '', s)`: remove every non-overlapping occurrence
of `-` followed by optional whitespace and `word`.  The fuel starts at the
input length; every recursive call consumes at least one character, so the
fuel never runs out. -/
def removeDashSpanGo (word : List Char) : Nat → List Char → List Char
  | 0, cs => cs
  | _ + 1, [] => []
  | fuel + 1, c :: cs =>
    if c = '-' then
      match matchWsWord word cs with
      | some rest => removeDashSpanGo word fuel rest
      | none => c :: removeDashSpanGo word fuel cs
    else c :: removeDashSpanGo word fuel cs

def removeDashSpanAll (word cs : List Char) : List Char :=
  removeDashSpanGo word cs.length cs

/-- Earliest index at which `-\s*word` matches. -/
def findDashPat (word : List Char) : List Char → Option Nat
  | [] => none
  | c :: cs =>
    if c = '-' && (matchWsWord word cs).isSome then some 0
    else (findDashPat word cs).map (· + 1)

/-- `re.sub(r'-\s*word.*', '', s)`: truncate at the earliest occurrence
of `-` followed by optional whitespace and `word`. -/
def truncDashPat (word cs : List Char) : List Char :=
  match findDashPat word cs with
  | some i => cs.take i
  | none => cs

/-- Earliest index at which `\s+word` matches (the match starts at the
beginning of a whitespace run that is immediately followed by `word`;
`word` starts with a non-whitespace character for every pattern used). -/
def findWsWord (word : List Char) : List Char → Option Nat
  | [] => none
  | c :: cs =>
    if isPySpace c && ciStartsWith ((c :: cs).dropWhile isPySpace) word then some 0
    else (findWsWord word cs).map (· + 1)

/-- `re.sub(r'\s+word.*', '', s)` (used for `feat`/`ft`/`featuring`;
the optional dot of `feat\.?` is absorbed by the trailing `.*`). -/
def truncWsWord (word cs : List Char) : List Char :=
  match findWsWord word cs with
  | some i => cs.take i
  | none => cs

/-- Earliest index at which `\s*word` matches (optional whitespace). -/
def findWsStarWord (word : List Char) : List Char → Option Nat
  | [] => none
  | c :: cs =>
    if ciStartsWith ((c :: cs).dropWhile isPySpace) word then some 0
    else (findWsStarWord word cs).map (· + 1)

/-- `re.sub(r'\s*word.*', '', s)`. -/
def truncWsStarWord (word cs : List Char) : List Char :=
  match findWsStarWord word cs with
  | some i => cs.take i
  | none => cs

/-- `re.sub(r',.*', '', s)`: truncate at the first comma. -/
def truncAtComma (cs : List Char) : List Char :=
  cs.takeWhile (fun c => c ≠ ',')

def lastIdxOf (c : Char) (cs : List Char) : Option Nat :=
  (cs.reverse.findIdx? (· = c)).map (fun r => cs.length - 1 - r)

/-- `re.sub(r'\(.*\)', '', s)` with a greedy `.*`: a single removal from
the first opening delimiter to the last closing delimiter after it (after
which no further match exists). -/
def removeParenSpan (opn cls : Char) (cs : List Char) : List Char :=
  match cs.findIdx? (· = opn), lastIdxOf cls cs with
  | some i, some j => if i < j then cs.take i ++ cs.drop (j + 1) else cs
  | _, _ => cs

/-- `MusicMatchingEngine.clean_title` (matching_engine.py lines 26-40,
73-80): apply the title patterns in order, stripping after each, then
normalize. -/
def clean_title (title : String) : String :=
  let cs := title.data
  let cs := pyStrip (removeParenSpan '(' ')' cs)
  let cs := pyStrip (removeParenSpan '[' ']' cs)
  let cs := pyStrip (removeDashSpanAll "single version".data cs)
  let cs := pyStrip (truncDashPat "remaster".data cs)
  let cs := pyStrip (truncDashPat "live".data cs)
  let cs := pyStrip (removeDashSpanAll "remix".data cs)
  let cs := pyStrip (removeDashSpanAll "radio edit".data cs)
  let cs := pyStrip (truncWsWord "feat".data cs)
  let cs := pyStrip (truncWsWord "ft".data cs)
  let cs := pyStrip (truncWsWord "featuring".data cs)
  normalize_string (String.mk cs)

/-- `MusicMatchingEngine.clean_artist` (matching_engine.py lines 42-49,
82-89): apply the artist patterns in order, stripping after each, then
normalize. -/
def clean_artist (artist : String) : String :=
  let cs := artist.data
  let cs := pyStrip (truncWsStarWord "feat.".data cs)
  let cs := pyStrip (truncWsStarWord "ft.".data cs)
  let cs := pyStrip (truncWsStarWord "featuring".data cs)
  let cs := pyStrip (truncWsStarWord "&".data cs)
  let cs := pyStrip (truncWsStarWord "and".data cs)
  let cs := pyStrip (truncAtComma cs)
  normalize_string (String.mk cs)

/-! ## Similarity scoring

`similarity_score` wraps `difflib.SequenceMatcher(None, a, b).ratio()`.
The matcher's recursive matching-block decomposition is embedded exactly
(longest matching block, earliest in `a` then in `b` among ties); the
autojunk heuristic, which only activates for inputs of 200 or more
characters, is not modelled.  The fuel of the block recursion starts
above the total input length, which the recursion never exhausts since
every level removes a non-empty block. -/

def commonLen : List Char → List Char → Nat
  | a :: as, b :: bs => if a = b then commonLen as bs + 1 else 0
  | _, _ => 0

/-- Longest matching block `(i, j, k)` of two character lists, preferring
the earliest `i`, then the earliest `j`, among blocks of maximal size. -/
def bestBlock (a b : List Char) : Nat × Nat × Nat :=
  (List.range a.length).foldl (fun best i =>
    (List.range b.length).foldl (fun best j =>
      let k := commonLen (a.drop i) (b.drop j)
      if best.2.2 < k then (i, j, k) else best) best) (0, 0, 0)

def matchingTotalGo : Nat → List Char → List Char → Nat
  | 0, _, _ => 0
  | fuel + 1, a, b =>
    let ijk := bestBlock a b
    if ijk.2.2 = 0 then 0
    else matchingTotalGo fuel (a.take ijk.1) (b.take ijk.2.1) + ijk.2.2 +
         matchingTotalGo fuel (a.drop (ijk.1 + ijk.2.2)) (b.drop (ijk.2.1 + ijk.2.2))

def matchingTotal (a b : List Char) : Nat :=
  matchingTotalGo (a.length + b.length + 1) a b

/-- `SequenceMatcher.ratio()`: `2*M/T`; `1.0` when both inputs are empty. -/
def sequenceMatcherScore (s1 s2 : String) : ℚ :=
  let total := s1.length + s2.length
  if total = 0 then 1
  else 2 * (matchingTotal s1.data s2.data : ℚ) / (total : ℚ)

/-- `MusicMatchingEngine.similarity_score` (matching_engine.py lines
91-96): `0.0` if either string is empty, else the sequence-matcher
ratio. -/
def similarity_score (s1 s2 : String) : ℚ :=
  if s1 = "" || s2 = "" then 0 else sequenceMatcherScore s1 s2

/-- `MusicMatchingEngine.duration_similarity` (matching_engine.py lines
98-109): neutral `0.5` when a duration is missing, `1.0` within a
5-second tolerance, else a steep linear penalty. -/
def duration_similarity (d1 d2 : Int) : ℚ :=
  if d1 = 0 || d2 = 0 then 1/2
  else if |d1 - d2| ≤ 5000 then 1
  else max 0 (1 - ((|d1 - d2| : ℚ) / ((max d1 d2 : Int) : ℚ)) * 5)

/-! ## Match confidence and best-match selection -/

/-- Modelled from the spec: SourceTrack (§3) — the fields of the
music-catalog track that `calculate_match_confidence` reads (title,
ordered artist list, duration in milliseconds).  The Spotify track class
itself is outside the core sources. -/
structure SpotifyTrack where
  name : String
  artists : List String
  duration_ms : Int
deriving DecidableEq

/-- Modelled from the spec: CandidateTrack (§3) — the fields of the local
library candidate that `calculate_match_confidence` reads (title, single
artist string, optional duration).  The Plex track class itself is
outside the core sources. -/
structure PlexTrackInfo where
  title : String
  artist : String
  duration : Option Int
deriving DecidableEq

/-- Python `pat in hay` substring test (the empty pattern is contained in
every string). -/
def containsSub : List Char → List Char → Bool
  | [], pat => pat.isEmpty
  | c :: t, pat => pat.isPrefixOf (c :: t) || containsSub t pat

/-- The artist loop of `calculate_match_confidence` (matching_engine.py
lines 122-132): for each cleaned source artist, score `1.0` if it is a
substring of the normalized candidate artist, else the similarity with
the cleaned candidate artist; keep the maximum, breaking early at
`1.0`. -/
def bestArtistScore (plexNorm plexClean : String) : ℚ → List String → ℚ
  | best, [] => best
  | best, a :: rest =>
    let score := if containsSub plexNorm.data a.data then 1 else similarity_score a plexClean
    if best < score then
      (if score = 1 then score else bestArtistScore plexNorm plexClean score rest)
    else bestArtistScore plexNorm plexClean best rest

/-- The tier-assignment block of `calculate_match_confidence`
(matching_engine.py lines 147-156), as a function of the three sub-scores
and the already-boosted confidence: strict comparisons, checked in order,
first match wins; the perfect branch raises confidence to at least
`0.98`. -/
def matchTypeAdjust (title_score artist_score duration_score confidence : ℚ) : ℚ × String :=
  if 19/20 < title_score ∧ 9/10 < artist_score ∧ 9/10 < duration_score then
    (max confidence (49/50), "perfect_match")
  else if 17/20 < title_score ∧ 4/5 < artist_score then (confidence, "high_confidence")
  else if 3/4 < title_score then (confidence, "medium_confidence")
  else (confidence, "low_confidence")

/-- `MusicMatchingEngine.calculate_match_confidence` (matching_engine.py
lines 111-158). -/
def calculate_match_confidence (st : SpotifyTrack) (pt : PlexTrackInfo) : ℚ × String :=
  let stc := clean_title st.name
  let ptc := clean_title pt.title
  let sArtists := (st.artists.filter (fun a => a ≠ "")).map clean_artist
  let pArtistClean := clean_artist pt.artist
  let pArtistNorm := normalize_string pt.artist
  let artist_score := bestArtistScore pArtistNorm pArtistClean 0 sArtists
  let title_score := similarity_score stc ptc
  let duration_score := duration_similarity st.duration_ms
    (match pt.duration with | some d => d | none => 0)
  let confidence := title_score * (1/2) + artist_score * (3/10) + duration_score * (1/5)
  let confidence := if stc = ptc ∧ 0 < stc.length then max confidence (17/20) else confidence
  matchTypeAdjust title_score artist_score duration_score confidence

structure MatchResult where
  spotify_track : SpotifyTrack
  plex_track : Option PlexTrackInfo
  confidence : ℚ
  match_type : String
deriving DecidableEq

/-- `MusicMatchingEngine.find_best_match` (matching_engine.py lines
160-182): empty candidate list yields the `no_candidates` result; else a
linear scan keeping the first candidate whose confidence strictly exceeds
the best so far (which starts at `0.0`). -/
def find_best_match (st : SpotifyTrack) (pts : List PlexTrackInfo) : MatchResult :=
  if pts = [] then ⟨st, none, 0, "no_candidates"⟩
  else
    let best := pts.foldl (fun (acc : Option PlexTrackInfo × ℚ × String) pt =>
      let cm := calculate_match_confidence st pt
      if acc.2.1 < cm.1 then (some pt, cm.1, cm.2) else acc) (none, 0, "no_match")
    ⟨st, best.1, best.2.1, best.2.2⟩

/-! ## Soulseek search results (soulseek_client.py)

`TrackResult.__post_init__` additionally infers display metadata
(artist, title, album, track number) from the filename; those fields are
read by no scored or grouped computation verified here and are not
embedded.  Consequently album member lists are kept in grouping order
instead of inferred-track-number order — a permutation of the same
tracks — and the display fields `album_title`, `artist` and `year` of
`AlbumResult` (path heuristics only) are omitted. -/

structure TrackResult where
  username : String
  filename : String
  size : Int
  bitrate : Option Int
  duration : Option Int
  quality : String
  free_upload_slots : Int
  upload_speed : Int
  queue_length : Int
deriving DecidableEq

structure AlbumResult where
  username : String
  album_path : String
  track_count : Nat
  total_size : Int
  tracks : List TrackResult
  dominant_quality : String
  free_upload_slots : Int
  upload_speed : Int
  queue_length : Int
deriving DecidableEq

/-- The codec weight table shared by both quality scores
(soulseek_client.py lines 29-37 and 149-157). -/
def qualityWeight (q : String) : ℚ :=
  let ql := pyLower q
  if ql = "flac" then 1
  else if ql = "mp3" then 4/5
  else if ql = "ogg" then 7/10
  else if ql = "aac" then 3/5
  else if ql = "wma" then 1/2
  else 3/10

/-- `SearchResult.quality_score` (soulseek_client.py lines 27-56).
`if self.bitrate:` is Python truthiness: `None` and `0` both skip the
bitrate adjustment. -/
def TrackResult.quality_score (t : TrackResult) : ℚ :=
  let base := qualityWeight t.quality
  let base := match t.bitrate with
    | some b =>
      if b ≠ 0 then
        (if 320 ≤ b then base + 1/5
         else if 256 ≤ b then base + 1/10
         else if b < 128 then base - 1/5
         else base)
      else base
    | none => base
  let base := if 0 < t.free_upload_slots then base + 1/10 else base
  let base := if 100 < t.upload_speed then base + 1/20 else base
  let base := if 10 < t.queue_length then base - 1/10 else base
  min base 1

/-- `AlbumResult.quality_score` (soulseek_client.py lines 146-175). -/
def AlbumResult.quality_score (a : AlbumResult) : ℚ :=
  let base := qualityWeight a.dominant_quality
  let base :=
    if 8 ≤ a.track_count ∧ a.track_count ≤ 20 then base + 1/10
    else if 20 < a.track_count then base + 1/20
    else base
  let base := if 0 < a.free_upload_slots then base + 1/10 else base
  let base := if 100 < a.upload_speed then base + 1/20 else base
  let base := if 10 < a.queue_length then base - 1/10 else base
  min base 1

/-- One file record of a raw peer search response. -/
structure SlskdFile where
  filename : String
  size : Int
  bitRate : Option Int
  length : Option Int
deriving DecidableEq

/-- One peer's raw search response (RawSearchResponse). -/
structure SlskdResponse where
  username : String
  freeUploadSlots : Int
  uploadSpeed : Int
  queueLength : Int
  files : List SlskdFile
deriving DecidableEq

/-- Python `str.split(sep)` for a one-character separator: splitting the
empty string yields `[""]`, and a trailing separator yields a trailing
empty part. -/
def splitOnChar (sep : Char) : List Char → List (List Char)
  | [] => [[]]
  | c :: rest =>
    match splitOnChar sep rest with
    | [] => [[]]
    | g :: gs => if c = sep then [] :: g :: gs else (c :: g) :: gs

/-- Python `sep.join(parts)` for a one-character separator. -/
def joinWith (sep : Char) : List (List Char) → List Char
  | [] => []
  | [g] => g
  | g :: gs => g ++ sep :: joinWith sep gs

/-- The final component of a POSIX path, as `pathlib.Path(...).name`. -/
def pathName (filename : String) : String :=
  String.mk ((splitOnChar '/' filename.data).getLastD filename.data)

/-- `pathlib.Path(...).suffix`: the substring from the last dot of the
name, unless that dot is the first or last character. -/
def pySuffix (name : String) : String :=
  match lastIdxOf '.' name.data with
  | some i => if 0 < i ∧ i < name.length - 1 then String.mk (name.data.drop i) else ""
  | none => ""

/-- `Path(filename).suffix.lower().lstrip('.')` (soulseek_client.py
line 359). -/
def fileExt (filename : String) : String :=
  String.mk ((pyLower (pySuffix (pathName filename))).data.dropWhile (fun c => c = '.'))

def audioExtensions : List String :=
  [".mp3", ".flac", ".ogg", ".aac", ".wma", ".wav", ".m4a"]

def knownQualities : List String := ["flac", "mp3", "ogg", "aac", "wma"]

/-- The per-file body of `_process_search_responses` (soulseek_client.py
lines 355-380): keep audio files only, label the quality, carry the
peer's metrics onto the track. -/
def parseResponse (r : SlskdResponse) : List TrackResult :=
  r.files.filterMap (fun f =>
    let ext := fileExt f.filename
    if ("." ++ ext) ∈ audioExtensions then
      some { username := r.username
             filename := f.filename
             size := f.size
             bitrate := f.bitRate
             duration := f.length
             quality := if ext ∈ knownQualities then ext else "unknown"
             free_upload_slots := r.freeUploadSlots
             upload_speed := r.uploadSpeed
             queue_length := r.queueLength }
    else none)

/-- The `all_tracks` accumulator of `_process_search_responses`. -/
def allParsedTracks (rs : List SlskdResponse) : List TrackResult :=
  rs.flatMap parseResponse

/-- `SoulseekClient._extract_album_path` (soulseek_client.py lines
406-427). -/
def extractAlbumPath (filename : String) : Option String :=
  if ¬ filename.data.contains '/' ∧ ¬ filename.data.contains '\\' then none
  else
    let normalized := filename.data.map (fun c => if c = '\\' then '/' else c)
    let parts := splitOnChar '/' normalized
    if parts.length < 2 then none
    else
      let albumDir := parts.getD (parts.length - 2) []
      if albumDir.head? = some '@' ∨ albumDir.length < 2 then none
      else some (String.mk (joinWith '/' parts.dropLast))

/-- The grouping key `(username, album_path)` of a parsed track, when the
track is groupable. -/
def trackKey (t : TrackResult) : Option (String × String) :=
  (extractAlbumPath t.filename).map (fun p => (t.username, p))

/-- Deduplication keeping first occurrences, the iteration order of a
Python dict/Counter keyed by insertion. -/
def firstOccur {α : Type} [DecidableEq α] : List α → List α
  | [] => []
  | x :: xs => x :: (firstOccur xs).filter (fun y => y ≠ x)

/-- The `albums_by_path` defaultdict of `_process_search_responses`
(soulseek_client.py lines 343, 382-385): keys in first-insertion order,
each group in track order. -/
def albumsByPath (ts : List TrackResult) : List ((String × String) × List TrackResult) :=
  (firstOccur (ts.filterMap trackKey)).map
    (fun k => (k, ts.filter (fun t => trackKey t = some k)))

/-- `Counter(...).most_common(1)[0][0]`: the most frequent element, ties
broken by first insertion. -/
def dominantQuality (qs : List String) : String :=
  (firstOccur qs).foldl (fun best q => if qs.count best < qs.count q then q else best)
    ((firstOccur qs).headD "")

/-- The body of the loop of `SoulseekClient._create_album_results`
(soulseek_client.py lines 437-474) for one `(username, album_path)`
group: groups with fewer than two tracks are skipped; peer metrics come
from the first track of the group. -/
def mkAlbumResult (kt : (String × String) × List TrackResult) : Option AlbumResult :=
  match kt.2 with
  | t1 :: _ :: _ =>
    some { username := kt.1.1
           album_path := kt.1.2
           track_count := kt.2.length
           total_size := (kt.2.map (fun t => t.size)).sum
           tracks := kt.2
           dominant_quality := dominantQuality (kt.2.map (fun t => t.quality))
           free_upload_slots := t1.free_upload_slots
           upload_speed := t1.upload_speed
           queue_length := t1.queue_length }
  | _ => none

/-- `SoulseekClient._create_album_results` (soulseek_client.py lines
430-476). -/
def createAlbumResults (abp : List ((String × String) × List TrackResult)) : List AlbumResult :=
  abp.filterMap mkAlbumResult

/-- `SoulseekClient._process_search_responses` (soulseek_client.py lines
337-404): parse all audio files, aggregate albums, and keep as individual
tracks those whose filename is claimed by no album. -/
def processSearchResponses (rs : List SlskdResponse) :
    List TrackResult × List AlbumResult :=
  let allTracks := allParsedTracks rs
  let albums := createAlbumResults (albumsByPath allTracks)
  let albumFilenames := albums.flatMap (fun a => a.tracks.map (fun t => t.filename))
  (allTracks.filter (fun t => decide (t.filename ∉ albumFilenames)), albums)

/-! ## The progressive search poll loop (`SoulseekClient.search`,
soulseek_client.py lines 545-637)

The loop is embedded as a fuel recursion over the successive values the
`GET searches/{id}/responses` poll returns (`none` for a failed or
non-list reply).  `list.sort(key=..., reverse=True)` is embedded as an
insertion sort by descending key.  Each invocation of the caller's
progress callback is recorded as a `ProgressEvent` (a callback exception
is caught by the loop and changes nothing). -/

def insertDescBy {α : Type} (key : α → ℚ) (x : α) : List α → List α
  | [] => [x]
  | y :: ys => if key y < key x then x :: y :: ys else y :: insertDescBy key x ys

def sortDescBy {α : Type} (key : α → ℚ) (l : List α) : List α :=
  l.foldr (insertDescBy key) []

structure ProgressEvent where
  pollIdx : Nat
  tracks : List TrackResult
  albums : List AlbumResult
  responseCount : Nat
deriving DecidableEq

structure SearchState where
  allResponses : List SlskdResponse
  allTracks : List TrackResult
  allAlbums : List AlbumResult

/-- One pass of the poll loop: process only the delta of the cumulative
response list, re-sort the cumulative results, emit a progress event, and
stop early once the response count reaches 30. -/
def searchGo : Nat → Nat → List (Option (List SlskdResponse)) → SearchState →
    SearchState × List ProgressEvent × Nat
  | 0, _, _, s => (s, [], 0)
  | fuel + 1, idx, polls, s =>
    match polls.headD none with
    | some rs =>
      if s.allResponses.length < rs.length then
        let nt := processSearchResponses (rs.drop s.allResponses.length)
        let tracks := sortDescBy TrackResult.quality_score (s.allTracks ++ nt.1)
        let albums := sortDescBy AlbumResult.quality_score (s.allAlbums ++ nt.2)
        let s' : SearchState := ⟨rs, tracks, albums⟩
        let ev : ProgressEvent := ⟨idx, tracks, albums, rs.length⟩
        if 30 ≤ rs.length then (s', [ev], 1)
        else
          let r := searchGo fuel (idx + 1) polls.tail s'
          (r.1, ev :: r.2.1, r.2.2 + 1)
      else
        let r := searchGo fuel (idx + 1) polls.tail s
        (r.1, r.2.1, r.2.2 + 1)
    | none =>
      let r := searchGo fuel (idx + 1) polls.tail s
      (r.1, r.2.1, r.2.2 + 1)

/-- `max_polls = int(timeout / 1.5)` (soulseek_client.py line 582): `1.5`
is exact in binary and the truncated float quotient agrees with
`⌊2·timeout/3⌋` for every machine-size timeout. -/
def maxPolls (timeout : Nat) : Nat := 2 * timeout / 3

/-- `SoulseekClient.search`: run the poll loop from an empty session.
Returns the final state, the progress events in order, and the number of
polls issued. -/
def runSearch (timeout : Nat) (polls : List (Option (List SlskdResponse))) :
    SearchState × List ProgressEvent × Nat :=
  searchGo (maxPolls timeout) 1 polls ⟨[], [], []⟩

/-! ## The scan-debounce controller (plex_scan_manager.py)

`PlexScanManager` is embedded as a state machine.  The timer slot holds
the generation number of the currently armed `threading.Timer`; a
cancelled or replaced timer never runs its callback, so only the armed
generation can fire.  Externally visible effects are recorded as
`ScanAct` actions: arming a timer, calling the remote
`trigger_library_scan`, and issuing the follow-up `request_scan` from
`_scan_completed`.  Completion callbacks, scan-start timestamps and the
monitoring poll cadence carry no claim here and are not part of the
state. -/

structure ScanState where
  scan_in_progress : Bool
  downloads_during_scan : Bool
  timer : Option Nat
  nextGen : Nat
deriving DecidableEq

inductive ScanAct where
  | armTimer (gen : Nat)
  | remoteScan
  | followUpRequest
deriving DecidableEq

/-- `PlexScanManager.request_scan` (plex_scan_manager.py lines 40-64):
while a scan is in progress only the flag is set; otherwise the existing
timer (if any) is cancelled and a fresh one is armed. -/
def request_scan (s : ScanState) : ScanState × List ScanAct :=
  if s.scan_in_progress then
    ({ s with downloads_during_scan := true }, [])
  else
    ({ s with timer := some s.nextGen, nextGen := s.nextGen + 1 },
     [ScanAct.armTimer s.nextGen])

/-- `PlexScanManager._execute_scan` (plex_scan_manager.py lines 91-118):
skip if already scanning, else mark in progress, clear the flag and the
timer slot, call the remote trigger; on failure reset to idle. -/
def execute_scan (success : Bool) (s : ScanState) : ScanState × List ScanAct :=
  if s.scan_in_progress then (s, [])
  else
    let s' : ScanState :=
      { s with scan_in_progress := true, downloads_during_scan := false, timer := none }
    if success then (s', [ScanAct.remoteScan])
    else ({ s' with scan_in_progress := false }, [ScanAct.remoteScan])

/-- A timer callback fires: only the currently armed generation reaches
`_execute_scan`. -/
def timer_fires (gen : Nat) (success : Bool) (s : ScanState) : ScanState × List ScanAct :=
  if s.timer = some gen then execute_scan success s else (s, [])

/-- `PlexScanManager._scan_completed` (plex_scan_manager.py lines
163-186): snapshot the flag, leave `in_progress`, and if the flag was set
issue exactly one follow-up `request_scan`.  Note the code resets
`_downloads_during_scan` only in `_execute_scan`, not here. -/
def scan_completed (s : ScanState) : ScanState × List ScanAct :=
  let s' : ScanState := { s with scan_in_progress := false }
  if s.scan_in_progress then
    if s.downloads_during_scan then
      let r := request_scan s'
      (r.1, ScanAct.followUpRequest :: r.2)
    else (s', [])
  else (s', [])

def iterateRequestScan : Nat → ScanState → ScanState × List ScanAct
  | 0, s => (s, [])
  | k + 1, s =>
    let r := request_scan s
    let r2 := iterateRequestScan k r.1
    (r2.1, r.2 ++ r2.2)

def countRemote (acts : List ScanAct) : Nat := acts.count ScanAct.remoteScan

def countFollowUps (acts : List ScanAct) : Nat := acts.count ScanAct.followUpRequest

def countArms (acts : List ScanAct) : Nat :=
  (acts.filter (fun a => match a with | ScanAct.armTimer _ => true | _ => false)).length

/-! ## Claim C1 -/

/-- C1 (amended): both quality scores are capped.  Every
`TrackResult.quality_score` is at most `1.0`, and — contrary to the
original claim — every `AlbumResult.quality_score` is also at most `1.0`:
`AlbumResult.quality_score` ends in the same `min(base_score, 1.0)` clamp
as the track score (soulseek_client.py line 175). -/
theorem C1_quality_scores_capped :
    (∀ t : TrackResult, t.quality_score ≤ 1) ∧
    (∀ a : AlbumResult, a.quality_score ≤ 1) := by
  constructor
  · intro t; exact min_le_right _ _
  · intro a; exact min_le_right _ _

/-- The album shape the claim itself offers as a witness for an uncapped
score: dominant quality flac, track count in [8,20], a free upload slot,
upload speed above 100. -/
def albumCEx : AlbumResult :=
  { username := "peer", album_path := "music/best", track_count := 10,
    total_size := 0, tracks := [], dominant_quality := "flac",
    free_upload_slots := 1, upload_speed := 200, queue_length := 0 }

/-- C1 counterexample: the claimed album with quality_score above `1.0`
does not exist — on the claim's own example shape the uncapped base would
be `1.25`, but the returned score is exactly `1.0`, not greater. -/
theorem C1_album_uncapped_cex :
    albumCEx.dominant_quality = "flac" ∧
    8 ≤ albumCEx.track_count ∧ albumCEx.track_count ≤ 20 ∧
    0 < albumCEx.free_upload_slots ∧ 100 < albumCEx.upload_speed ∧
    albumCEx.quality_score = 1 ∧ ¬(1 < albumCEx.quality_score) := by
  have h : albumCEx.quality_score = 1 := by with_unfolding_all rfl
  refine ⟨rfl, by decide, by decide, by decide, by decide, h, ?_⟩
  rw [h]
  norm_num

/-! ## Claim C6 -/

/-- C6: match tiers are assigned by strict comparisons checked in order,
first match wins; the perfect branch raises confidence to at least 0.98;
a sub-score exactly on a perfect-match boundary (title 0.95, artist 0.9,
duration 0.9) does not qualify for perfect_match. -/
theorem C6_tier_assignment :
    ∀ t a d c : ℚ,
      ((19/20 < t ∧ 9/10 < a ∧ 9/10 < d) →
        matchTypeAdjust t a d c = (max c (49/50), "perfect_match") ∧
        49/50 ≤ (matchTypeAdjust t a d c).1) ∧
      (¬(19/20 < t ∧ 9/10 < a ∧ 9/10 < d) → 17/20 < t → 4/5 < a →
        matchTypeAdjust t a d c = (c, "high_confidence")) ∧
      (¬(19/20 < t ∧ 9/10 < a ∧ 9/10 < d) → ¬(17/20 < t ∧ 4/5 < a) → 3/4 < t →
        matchTypeAdjust t a d c = (c, "medium_confidence")) ∧
      (t ≤ 3/4 → matchTypeAdjust t a d c = (c, "low_confidence")) ∧
      (matchTypeAdjust (19/20) a d c).2 ≠ "perfect_match" ∧
      (matchTypeAdjust t (9/10) d c).2 ≠ "perfect_match" ∧
      (matchTypeAdjust t a (9/10) c).2 ≠ "perfect_match" := by
  intro t a d c
  refine ⟨?_, ?_, ?_, ?_, ?_, ?_, ?_⟩
  · intro h
    unfold matchTypeAdjust
    rw [if_pos h]
    exact ⟨rfl, le_max_right _ _⟩
  · intro h1 h2 h3
    unfold matchTypeAdjust
    rw [if_neg h1, if_pos ⟨h2, h3⟩]
  · intro h1 h2 h3
    unfold matchTypeAdjust
    rw [if_neg h1, if_neg h2, if_pos h3]
  · intro h
    unfold matchTypeAdjust
    rw [if_neg (by rintro ⟨h1, -, -⟩; linarith), if_neg (by rintro ⟨h1, -⟩; linarith),
      if_neg (by intro h1; linarith)]
  · unfold matchTypeAdjust
    rw [if_neg (by rintro ⟨h1, -, -⟩; exact lt_irrefl _ h1)]
    split_ifs <;> simp
  · unfold matchTypeAdjust
    rw [if_neg (by rintro ⟨-, h1, -⟩; exact lt_irrefl _ h1)]
    split_ifs <;> simp
  · unfold matchTypeAdjust
    rw [if_neg (by rintro ⟨-, -, h1⟩; exact lt_irrefl _ h1)]
    split_ifs <;> simp

/-- C6 witness: a fully perfect input lands in the perfect branch. -/
theorem C6_tier_assignment_witness :
    matchTypeAdjust 1 1 1 0 = (max 0 (49/50), "perfect_match") ∧
    49/50 ≤ (matchTypeAdjust 1 1 1 0).1 :=
  (C6_tier_assignment 1 1 1 0).1 ⟨by norm_num, by norm_num, by norm_num⟩

/-! ## Claim C7 -/

lemma matchTypeAdjust_fst_ge (t a d c : ℚ) : c ≤ (matchTypeAdjust t a d c).1 := by
  unfold matchTypeAdjust
  split_ifs <;> simp [le_max_left]

/-- C7: whenever the cleaned titles coincide and are non-empty, the
returned confidence is at least 0.85, whatever the artist and duration
sub-scores contribute. -/
theorem C7_exact_title_boost (st : SpotifyTrack) (pt : PlexTrackInfo)
    (heq : clean_title st.name = clean_title pt.title)
    (hpos : 0 < (clean_title st.name).length) :
    17/20 ≤ (calculate_match_confidence st pt).1 := by
  simp only [calculate_match_confidence]
  rw [if_pos ⟨heq, hpos⟩]
  exact le_trans (le_max_right _ _) (matchTypeAdjust_fst_ge _ _ _ _)

def c7Spotify : SpotifyTrack := { name := "ab", artists := [], duration_ms := 0 }

def c7Plex : PlexTrackInfo := { title := "ab", artist := "", duration := none }

/-- C7 witness: two tracks titled "ab". -/
theorem C7_exact_title_boost_witness :
    17/20 ≤ (calculate_match_confidence c7Spotify c7Plex).1 :=
  C7_exact_title_boost c7Spotify c7Plex rfl (by decide)

/-! ## Claim C10 -/

/-- C10: the artist strip patterns are not word-boundary anchored:
`\s*and.*` fires on the embedded "and" of "Band of Horses" (with an empty
`\s*`), truncating the artist to "B", which normalizes to "b". -/
theorem C10_clean_artist_unanchored : clean_artist "Band of Horses" = "b" := by decide

/-! ## Claim C3 -/

lemma request_scan_busy (s : ScanState) (h : s.scan_in_progress = true) :
    request_scan s = ({ s with downloads_during_scan := true }, []) := by
  simp [request_scan, h]

lemma iterateRequestScan_busy_mk (k : Nat) :
    ∀ (f : Bool) (t : Option Nat) (g : Nat),
      iterateRequestScan (k + 1) ⟨true, f, t, g⟩ = (⟨true, true, t, g⟩, []) := by
  induction k with
  | zero => intro f t g; rfl
  | succ n ih =>
    intro f t g
    rw [show iterateRequestScan (n + 1 + 1) ⟨true, f, t, g⟩ =
          ((iterateRequestScan (n + 1) (request_scan ⟨true, f, t, g⟩).1).1,
            (request_scan ⟨true, f, t, g⟩).2 ++
              (iterateRequestScan (n + 1) (request_scan ⟨true, f, t, g⟩).1).2) from rfl,
      show request_scan (⟨true, f, t, g⟩ : ScanState) =
          ((⟨true, true, t, g⟩ : ScanState), ([] : List ScanAct)) from rfl]
    rw [ih true t g]
    rfl

lemma iterateRequestScan_busy (s : ScanState) (h : s.scan_in_progress = true) (k : Nat) :
    iterateRequestScan (k + 1) s = ({ s with downloads_during_scan := true }, []) := by
  obtain ⟨sp, f, t, g⟩ := s
  subst h
  exact iterateRequestScan_busy_mk k f t g

def scanBusyState : ScanState :=
  { scan_in_progress := true, downloads_during_scan := false, timer := none, nextGen := 0 }

/-- C3 counterexample: a request during an in-progress scan sets the
flag, and when that scan completes the controller issues its single
follow-up request — but `_scan_completed` does not clear
`_downloads_during_scan`: immediately after completion the flag is still
set (it is only reset when `_execute_scan` later runs the follow-up). -/
theorem C3_flag_cex :
    countFollowUps (scan_completed (request_scan scanBusyState).1).2 = 1 ∧
    (scan_completed (request_scan scanBusyState).1).1.scan_in_progress = false ∧
    (scan_completed (request_scan scanBusyState).1).1.downloads_during_scan = true := by
  decide

/-- C3 (amended): any number `k ≥ 1` of `request_scan` calls during an
in-progress scan only sets the flag (no timer armed, no remote call, no
other state change); when the scan is observed complete the controller
issues exactly one follow-up `request_scan` (arming one timer, calling
nothing remote); the flag is cleared when the follow-up scan begins
executing — not at completion itself — and once the follow-up scan runs,
its own completion issues no further follow-up, so one in-progress scan
never produces more than one follow-up scan. -/
theorem C3_followup_exactly_once (s : ScanState) (hBusy : s.scan_in_progress = true)
    (k : Nat) (hk : 1 ≤ k) (success : Bool) :
    (iterateRequestScan k s).1 = { s with downloads_during_scan := true } ∧
    (iterateRequestScan k s).2 = [] ∧
    countFollowUps (scan_completed (iterateRequestScan k s).1).2 = 1 ∧
    countRemote (scan_completed (iterateRequestScan k s).1).2 = 0 ∧
    countArms (scan_completed (iterateRequestScan k s).1).2 = 1 ∧
    (scan_completed (iterateRequestScan k s).1).1.timer = some s.nextGen ∧
    (timer_fires s.nextGen success
      (scan_completed (iterateRequestScan k s).1).1).1.downloads_during_scan = false ∧
    countRemote (timer_fires s.nextGen success
      (scan_completed (iterateRequestScan k s).1).1).2 = 1 ∧
    countFollowUps (scan_completed (timer_fires s.nextGen success
      (scan_completed (iterateRequestScan k s).1).1).1).2 = 0 := by
  obtain ⟨n, rfl⟩ : ∃ n, k = n + 1 := ⟨k - 1, by omega⟩
  rw [iterateRequestScan_busy s hBusy]
  cases success <;>
    simp [scan_completed, request_scan, timer_fires, execute_scan,
      countFollowUps, countRemote, countArms, hBusy]

/-- C3 witness: two requests arrive during a concrete in-progress scan;
completion issues exactly one follow-up request. -/
theorem C3_followup_exactly_once_witness :
    countFollowUps (scan_completed (iterateRequestScan 2 scanBusyState).1).2 = 1 :=
  (C3_followup_exactly_once scanBusyState rfl 2 (by norm_num) true).2.2.1

/-! ## Claim C4 -/

/-- C4: two `request_scan` calls while no scan is in progress, the second
arriving before the debounce fires: the first call arms a timer, the
second cancels it and arms a fresh one (one armed timer each, never two
live at once); the stale generation can no longer fire (its callback is a
no-op with no actions), and the whole sequence produces exactly one
remote scan trigger, issued when the replacing timer fires. -/
theorem C4_debounce_single_trigger (s : ScanState) (hIdle : s.scan_in_progress = false)
    (success : Bool) :
    (request_scan s).1.timer = some s.nextGen ∧
    (request_scan (request_scan s).1).1.timer = some (s.nextGen + 1) ∧
    timer_fires s.nextGen success (request_scan (request_scan s).1).1 =
      ((request_scan (request_scan s).1).1, []) ∧
    countRemote ((request_scan s).2 ++ (request_scan (request_scan s).1).2 ++
      (timer_fires (s.nextGen + 1) success (request_scan (request_scan s).1).1).2) = 1 ∧
    countArms ((request_scan s).2) = 1 ∧
    countArms ((request_scan (request_scan s).1).2) = 1 := by
  cases success <;>
    simp [request_scan, hIdle, timer_fires, execute_scan, countRemote, countArms,
      Nat.succ_ne_self]

def idleScanState : ScanState :=
  { scan_in_progress := false, downloads_during_scan := false, timer := none, nextGen := 0 }

/-- C4 witness: the concrete double request from idle triggers exactly
one remote scan. -/
theorem C4_debounce_single_trigger_witness :
    countRemote ((request_scan idleScanState).2 ++ (request_scan (request_scan idleScanState).1).2 ++
      (timer_fires (idleScanState.nextGen + 1) true
        (request_scan (request_scan idleScanState).1).1).2) = 1 :=
  (C4_debounce_single_trigger idleScanState rfl true).2.2.2.1

/-! ## Claim C8 -/

/-- The loop body of `find_best_match` as a named function (definitionally
the lambda inside `find_best_match`). -/
def fbmStep (st : SpotifyTrack) (acc : Option PlexTrackInfo × ℚ × String)
    (pt : PlexTrackInfo) : Option PlexTrackInfo × ℚ × String :=
  let cm := calculate_match_confidence st pt
  if acc.2.1 < cm.1 then (some pt, cm.1, cm.2) else acc

lemma find_best_match_eq (st : SpotifyTrack) (pts : List PlexTrackInfo) (h : pts ≠ []) :
    find_best_match st pts =
      ⟨st, (pts.foldl (fbmStep st) (none, 0, "no_match")).1,
        (pts.foldl (fbmStep st) (none, 0, "no_match")).2.1,
        (pts.foldl (fbmStep st) (none, 0, "no_match")).2.2⟩ := by
  unfold find_best_match
  rw [if_neg h]
  rfl

/-- The best-so-far fold either keeps the accumulator (when no candidate
strictly beats it) or lands on the first candidate that strictly beats
the accumulator and every earlier candidate, and that no candidate
exceeds. -/
lemma fbmStep_fold_spec (st : SpotifyTrack) (l : List PlexTrackInfo) :
    ∀ acc : Option PlexTrackInfo × ℚ × String,
      acc.2.1 ≤ (l.foldl (fbmStep st) acc).2.1 ∧
      (∀ pt ∈ l, (calculate_match_confidence st pt).1 ≤ (l.foldl (fbmStep st) acc).2.1) ∧
      ((l.foldl (fbmStep st) acc = acc ∧
          ∀ pt ∈ l, (calculate_match_confidence st pt).1 ≤ acc.2.1) ∨
        ∃ i, ∃ hi : i < l.length,
          l.foldl (fbmStep st) acc =
            (some (l.get ⟨i, hi⟩), (calculate_match_confidence st (l.get ⟨i, hi⟩)).1,
              (calculate_match_confidence st (l.get ⟨i, hi⟩)).2) ∧
          acc.2.1 < (calculate_match_confidence st (l.get ⟨i, hi⟩)).1 ∧
          ∀ j, ∀ hj : j < l.length, j < i →
            (calculate_match_confidence st (l.get ⟨j, hj⟩)).1 <
              (calculate_match_confidence st (l.get ⟨i, hi⟩)).1) := by
  induction l with
  | nil => intro acc; exact ⟨le_refl _, by simp, Or.inl ⟨rfl, by simp⟩⟩
  | cons pt rest ih =>
    intro acc
    rw [List.foldl_cons]
    by_cases hlt : acc.2.1 < (calculate_match_confidence st pt).1
    · have hstep : fbmStep st acc pt =
          (some pt, (calculate_match_confidence st pt).1,
            (calculate_match_confidence st pt).2) := by
        unfold fbmStep; rw [if_pos hlt]
      rw [hstep]
      obtain ⟨ih1, ih2, ih3⟩ := ih (some pt, (calculate_match_confidence st pt).1,
        (calculate_match_confidence st pt).2)
      refine ⟨le_trans (le_of_lt hlt) ih1, ?_, ?_⟩
      · intro q hq
        rcases List.mem_cons.mp hq with h1 | h1
        · subst h1; exact ih1
        · exact ih2 q h1
      · rcases ih3 with ⟨hr, hall⟩ | ⟨i, hi, hr, hacc, hstrict⟩
        · refine Or.inr ⟨0, by simp, ?_, hlt, ?_⟩
          · exact hr
          · intro j hj hj0; omega
        · refine Or.inr ⟨i + 1, by simp only [List.length_cons]; omega, ?_, ?_, ?_⟩
          · exact hr
          · exact lt_trans hlt hacc
          · intro j hj hji
            match j, hj with
            | 0, hj => exact hacc
            | j' + 1, hj =>
              exact hstrict j' (by simp only [List.length_cons] at hj; omega) (by omega)
    · have hstep : fbmStep st acc pt = acc := by
        unfold fbmStep; rw [if_neg hlt]
      rw [hstep]
      obtain ⟨ih1, ih2, ih3⟩ := ih acc
      refine ⟨ih1, ?_, ?_⟩
      · intro q hq
        rcases List.mem_cons.mp hq with h1 | h1
        · subst h1; exact le_trans (le_of_not_lt hlt) ih1
        · exact ih2 q h1
      · rcases ih3 with ⟨hr, hall⟩ | ⟨i, hi, hr, hacc, hstrict⟩
        · refine Or.inl ⟨hr, ?_⟩
          intro q hq
          rcases List.mem_cons.mp hq with h1 | h1
          · subst h1; exact le_of_not_lt hlt
          · exact hall q h1
        · refine Or.inr ⟨i + 1, by simp only [List.length_cons]; omega, hr, hacc, ?_⟩
          intro j hj hji
          match j, hj with
          | 0, hj => exact lt_of_le_of_lt (le_of_not_lt hlt) hacc
          | j' + 1, hj =>
            exact hstrict j' (by simp only [List.length_cons] at hj; omega) (by omega)

/-- C8 (amended): `find_best_match` on an empty candidate list returns
the no-candidate result with confidence 0.0 and tier "no_candidates"; on
a non-empty list it computes every candidate's confidence and returns the
strictly-greatest-scoring candidate (ties keep the first-seen) —
provided some candidate scores strictly above `0.0`.  When every
candidate scores `0.0` (the initial best), the code instead returns a
MatchResult with no candidate, confidence `0.0` and tier "no_match",
not the first-seen candidate. -/
theorem C8_find_best_match (st : SpotifyTrack) (pts : List PlexTrackInfo) :
    (pts = [] → find_best_match st pts = ⟨st, none, 0, "no_candidates"⟩) ∧
    (pts ≠ [] → (∀ pt ∈ pts, (calculate_match_confidence st pt).1 ≤ 0) →
      find_best_match st pts = ⟨st, none, 0, "no_match"⟩) ∧
    (∀ pt0 ∈ pts, 0 < (calculate_match_confidence st pt0).1 →
      ∃ i, ∃ hi : i < pts.length,
        (find_best_match st pts).plex_track = some (pts.get ⟨i, hi⟩) ∧
        (find_best_match st pts).confidence =
          (calculate_match_confidence st (pts.get ⟨i, hi⟩)).1 ∧
        (find_best_match st pts).match_type =
          (calculate_match_confidence st (pts.get ⟨i, hi⟩)).2 ∧
        0 < (calculate_match_confidence st (pts.get ⟨i, hi⟩)).1 ∧
        (∀ pt ∈ pts, (calculate_match_confidence st pt).1 ≤
          (calculate_match_confidence st (pts.get ⟨i, hi⟩)).1) ∧
        (∀ j, ∀ hj : j < pts.length, j < i →
          (calculate_match_confidence st (pts.get ⟨j, hj⟩)).1 <
            (calculate_match_confidence st (pts.get ⟨i, hi⟩)).1)) := by
  refine ⟨?_, ?_, ?_⟩
  · intro h; subst h; rfl
  · intro hne hall
    rw [find_best_match_eq st pts hne]
    rcases (fbmStep_fold_spec st pts (none, 0, "no_match")).2.2 with
      ⟨hr, -⟩ | ⟨i, hi, hr, hacc, -⟩
    · rw [hr]
    · exact absurd (lt_of_lt_of_le hacc (hall _ (pts.get_mem _ _))) (by norm_num)
  · intro pt0 hmem hpos
    have hne : pts ≠ [] := List.ne_nil_of_mem hmem
    rw [find_best_match_eq st pts hne]
    rcases (fbmStep_fold_spec st pts (none, 0, "no_match")).2.2 with
      ⟨hr, hall⟩ | ⟨i, hi, hr, hacc, hstrict⟩
    · exact absurd (lt_of_lt_of_le hpos (hall pt0 hmem)) (by norm_num)
    · refine ⟨i, hi, ?_, ?_, ?_, hacc, ?_, hstrict⟩
      · rw [hr]
      · rw [hr]
      · rw [hr]
      · intro pt hpt
        have := (fbmStep_fold_spec st pts (none, 0, "no_match")).2.1 pt hpt
        rw [hr] at this
        exact this

def c8Spotify : SpotifyTrack := { name := "(b)", artists := [""], duration_ms := 100000 }

def c8Plex : PlexTrackInfo := { title := "(a)", artist := "qz", duration := some 10000 }

/-- C8 counterexample: one candidate is present yet the returned
MatchResult carries no candidate.  Both cleaned titles are empty (the
parenthesised content is stripped), the artist list contains only a falsy
entry, and the durations differ by more than 20%, so the candidate's
confidence is exactly 0.0 — it never strictly exceeds the initial best of
0.0, and `find_best_match` returns tier "no_match" with `plex_track =
None` instead of the greatest-scoring (first) candidate. -/
theorem C8_zero_confidence_cex :
    (calculate_match_confidence c8Spotify c8Plex).1 = 0 ∧
    find_best_match c8Spotify [c8Plex] = ⟨c8Spotify, none, 0, "no_match"⟩ := by
  constructor
  · with_unfolding_all rfl
  · with_unfolding_all rfl

def c8wSpotify : SpotifyTrack := { name := "", artists := [""], duration_ms := 1000 }

def c8wPlex : PlexTrackInfo := { title := "", artist := "", duration := some 1000 }

/-- C8 witness: with one candidate of confidence 0.2 (duration match
only), the returned result is that candidate with its confidence and
tier. -/
theorem C8_find_best_match_witness :
    ∃ i, ∃ hi : i < [c8wPlex].length,
      (find_best_match c8wSpotify [c8wPlex]).plex_track = some ([c8wPlex].get ⟨i, hi⟩) ∧
      (find_best_match c8wSpotify [c8wPlex]).confidence =
        (calculate_match_confidence c8wSpotify ([c8wPlex].get ⟨i, hi⟩)).1 ∧
      (find_best_match c8wSpotify [c8wPlex]).match_type =
        (calculate_match_confidence c8wSpotify ([c8wPlex].get ⟨i, hi⟩)).2 ∧
      0 < (calculate_match_confidence c8wSpotify ([c8wPlex].get ⟨i, hi⟩)).1 ∧
      (∀ pt ∈ [c8wPlex], (calculate_match_confidence c8wSpotify pt).1 ≤
        (calculate_match_confidence c8wSpotify ([c8wPlex].get ⟨i, hi⟩)).1) ∧
      (∀ j, ∀ hj : j < [c8wPlex].length, j < i →
        (calculate_match_confidence c8wSpotify ([c8wPlex].get ⟨j, hj⟩)).1 <
          (calculate_match_confidence c8wSpotify ([c8wPlex].get ⟨i, hi⟩)).1) :=
  (C8_find_best_match c8wSpotify [c8wPlex]).2.2 c8wPlex (by simp)
    (by rw [show (calculate_match_confidence c8wSpotify c8wPlex).1 = 1/5 from by
          with_unfolding_all rfl]
        norm_num)

/-! ## Claim C9 -/

lemma unidecodeTable_ascii : ∀ p ∈ unidecodeTable, ∀ d ∈ p.2.data, d.toNat < 128 := by decide

lemma unidecodeChar_ascii (c : Char) : ∀ d ∈ (unidecodeChar c).data, d.toNat < 128 := by
  intro d hd
  by_cases h : c.toNat < 128
  · rw [unidecodeChar, if_pos h] at hd
    simp [String.singleton] at hd
    subst hd
    exact h
  · rw [unidecodeChar, if_neg h] at hd
    cases hfind : unidecodeTable.find? (fun e => e.1 = c) with
    | none => rw [hfind] at hd; simp at hd
    | some e =>
      rw [hfind] at hd
      simp at hd
      exact unidecodeTable_ascii e (List.mem_of_find?_eq_some hfind) d hd

lemma pyUnidecode_ascii (s : String) : ∀ d ∈ (pyUnidecode s).data, d.toNat < 128 := by
  intro d hd
  simp only [pyUnidecode, List.mem_flatMap] at hd
  obtain ⟨c, -, hc⟩ := hd
  exact unidecodeChar_ascii c d hc

/-- Exhaustive check over the 128 ASCII characters: after lowercasing, a
character kept by the `[^\w\s-]` filter that is not whitespace is a
lowercase letter, a digit, an underscore or a hyphen. -/
lemma lower_ascii_char_allowed : ∀ n : Fin 128,
    (isWordChar ((Char.ofNat n.val).toLower) || isPySpace ((Char.ofNat n.val).toLower) ||
      (Char.ofNat n.val).toLower = '-') = true →
    isPySpace ((Char.ofNat n.val).toLower) = false →
    ((Char.ofNat n.val).toLower.isLower = true ∨ (Char.ofNat n.val).toLower.isDigit = true ∨
      (Char.ofNat n.val).toLower = '_' ∨ (Char.ofNat n.val).toLower = '-') := by decide

lemma normFilter_lower_char {s : String} {c : Char}
    (hc : c ∈ normFilter ((pyLower (pyUnidecode s)).data)) :
    isPySpace c = true ∨
      (c.isLower = true ∨ c.isDigit = true ∨ c = '_' ∨ c = '-') := by
  obtain ⟨hmem, hkeep⟩ := List.mem_filter.mp hc
  simp only [pyLower, List.mem_map] at hmem
  obtain ⟨u, hu, rfl⟩ := hmem
  have hascii := pyUnidecode_ascii s u hu
  by_cases hsp : isPySpace u.toLower = true
  · exact Or.inl hsp
  · refine Or.inr ?_
    have h1 : Char.ofNat ((⟨u.toNat, hascii⟩ : Fin 128) : Fin 128).val = u := Char.ofNat_toNat u
    have h2 := lower_ascii_char_allowed ⟨u.toNat, hascii⟩
    rw [h1] at h2
    exact h2 hkeep (by simpa using hsp)

lemma collapseWs_mem : ∀ (cs : List Char), ∀ c ∈ collapseWs cs,
    c = ' ' ∨ (c ∈ cs ∧ isPySpace c = false) := by
  intro cs
  induction cs with
  | nil => intro c hc; simp [collapseWs] at hc
  | cons a rest ih =>
    intro c hc
    cases rest with
    | nil =>
      by_cases h : isPySpace a
      · rw [show collapseWs [a] = [' '] from by simp [collapseWs, h]] at hc
        simp at hc
        exact Or.inl hc
      · rw [show collapseWs [a] = [a] from by simp [collapseWs, h]] at hc
        simp at hc
        subst hc
        exact Or.inr ⟨List.mem_cons_self _ _, by simpa using h⟩
    | cons d rest2 =>
      simp only [collapseWs] at hc
      by_cases h12 : isPySpace a && isPySpace d
      · rw [if_pos h12] at hc
        rcases ih c hc with h | ⟨hmem, hsp⟩
        · exact Or.inl h
        · exact Or.inr ⟨List.mem_cons_of_mem _ hmem, hsp⟩
      · rw [if_neg h12] at hc
        rcases List.mem_cons.mp hc with rfl | h
        · by_cases ha : isPySpace a
          · rw [if_pos ha]
            exact Or.inl rfl
          · rw [if_neg ha]
            exact Or.inr ⟨List.mem_cons_self _ _, by simpa using ha⟩
        · rcases ih c h with h2 | ⟨hmem, hsp⟩
          · exact Or.inl h2
          · exact Or.inr ⟨List.mem_cons_of_mem _ hmem, hsp⟩

lemma collapseWs_head : ∀ (rest : List Char) (a : Char),
    (collapseWs (a :: rest)).head? = some (if isPySpace a then ' ' else a) := by
  intro rest
  induction rest with
  | nil => intro a; by_cases h : isPySpace a <;> simp [collapseWs, h]
  | cons d rest2 ih =>
    intro a
    by_cases h1 : isPySpace a <;> by_cases h2 : isPySpace d <;>
      simp [collapseWs, h1, h2, ih d]

lemma collapseWs_chain : ∀ (cs : List Char),
    (collapseWs cs).Chain' (fun x y => ¬(isPySpace x = true ∧ isPySpace y = true)) := by
  intro cs
  induction cs with
  | nil => simp [collapseWs]
  | cons a rest ih =>
    cases rest with
    | nil => by_cases h : isPySpace a <;> simp [collapseWs, h]
    | cons d rest2 =>
      by_cases h12 : isPySpace a && isPySpace d
      · rw [show collapseWs (a :: d :: rest2) = collapseWs (d :: rest2) from by
          simp [collapseWs, h12]]
        exact ih
      · rw [show collapseWs (a :: d :: rest2) =
            (if isPySpace a then ' ' else a) :: collapseWs (d :: rest2) from by
          simp only [collapseWs, if_neg h12]]
        rw [List.chain'_cons']
        refine ⟨?_, ih⟩
        intro y hy
        rw [collapseWs_head rest2 d] at hy
        simp at hy
        subst hy
        by_cases ha : isPySpace a
        · by_cases hd : isPySpace d
          · exact absurd (by simp [ha, hd]) h12
          · rw [if_neg hd]
            rintro ⟨-, hcon⟩
            exact absurd hcon (by simpa using hd)
        · rw [if_neg ha]
          rintro ⟨hcon, -⟩
          exact absurd hcon (by simpa using ha)

lemma dropWhile_head_not (p : Char → Bool) : ∀ (l : List Char) (c : Char),
    (l.dropWhile p).head? = some c → p c = false := by
  intro l
  induction l with
  | nil => intro c hc; simp at hc
  | cons a t ih =>
    intro c hc
    by_cases h : p a
    · rw [List.dropWhile_cons, if_pos h] at hc
      exact ih c hc
    · rw [List.dropWhile_cons, if_neg h] at hc
      simp at hc
      subst hc
      simpa using h

lemma dropTrailWhile_front (p : Char → Bool) (l : List Char) : dropTrailWhile p l <+: l := by
  rw [← List.reverse_suffix]
  unfold dropTrailWhile
  rw [List.reverse_reverse]
  exact List.dropWhile_suffix p

lemma prefix_head_eq {l₁ l₂ : List Char} {c : Char} (hp : l₁ <+: l₂)
    (h : l₁.head? = some c) : l₂.head? = some c := by
  obtain ⟨t, rfl⟩ := hp
  rw [List.head?_append, h]
  rfl

lemma pyStrip_head_not_space (cs : List Char) (c : Char)
    (h : (pyStrip cs).head? = some c) : isPySpace c = false :=
  dropWhile_head_not isPySpace cs c
    (prefix_head_eq (dropTrailWhile_front isPySpace (cs.dropWhile isPySpace)) h)

lemma pyStrip_getLast_not_space (cs : List Char) (c : Char)
    (h : (pyStrip cs).getLast? = some c) : isPySpace c = false := by
  unfold pyStrip dropTrailWhile at h
  rw [List.getLast?_reverse] at h
  exact dropWhile_head_not isPySpace _ c h

lemma pyStrip_subset (cs : List Char) : ∀ c ∈ pyStrip cs, c ∈ cs := by
  intro c hc
  exact (List.dropWhile_suffix isPySpace).subset
    ((dropTrailWhile_front isPySpace (cs.dropWhile isPySpace)).subset hc)

lemma pyStrip_chain {R : Char → Char → Prop} (cs : List Char) (h : cs.Chain' R) :
    (pyStrip cs).Chain' R :=
  List.Chain'.prefix (List.Chain'.suffix h (List.dropWhile_suffix isPySpace))
    (dropTrailWhile_front isPySpace (cs.dropWhile isPySpace))

/-- C9 counterexample: the filter `[^\w\s-]` keeps `\w`, which includes
the underscore; `normalize_string "a_b"` returns `"a_b"`, and an
underscore is not a lowercase letter, a digit, whitespace or a hyphen. -/
theorem C9_underscore_cex :
    normalize_string "a_b" = "a_b" ∧
    ¬('_'.isLower = true ∨ '_'.isDigit = true ∨ isPySpace '_' = true ∨ '_' = '-') := by
  constructor
  · decide
  · decide

/-- C9 (amended): for every input string, `normalize_string` returns a
string whose characters are lowercase letters, digits, underscores,
hyphens or single spaces (the underscore survives because the filter
keeps Python's `\w`, which includes it); no two adjacent characters are
both spaces (whitespace runs are collapsed); the first and last
characters are not spaces (trimmed); the empty string maps to the empty
string. -/
theorem C9_normalize_charset (s : String) :
    (∀ c ∈ (normalize_string s).data,
      c.isLower = true ∨ c.isDigit = true ∨ c = '_' ∨ c = '-' ∨ c = ' ') ∧
    (normalize_string s).data.Chain' (fun a b => ¬(a = ' ' ∧ b = ' ')) ∧
    (∀ c, (normalize_string s).data.head? = some c → c ≠ ' ') ∧
    (∀ c, (normalize_string s).data.getLast? = some c → c ≠ ' ') ∧
    normalize_string "" = "" := by
  by_cases hs : s = ""
  · subst hs
    refine ⟨?_, ?_, ?_, ?_, rfl⟩
    · intro c hc; simp [normalize_string] at hc
    · simp [normalize_string]
    · intro c hc; simp [normalize_string] at hc
    · intro c hc; simp [normalize_string] at hc
  · have hdata : (normalize_string s).data =
        pyStrip (collapseWs (normFilter ((pyLower (pyUnidecode s)).data))) := by
      rw [normalize_string, if_neg hs]
    refine ⟨?_, ?_, ?_, ?_, rfl⟩
    · intro c hc
      rw [hdata] at hc
      rcases collapseWs_mem _ c (pyStrip_subset _ c hc) with rfl | ⟨hmem, hsp⟩
      · exact Or.inr (Or.inr (Or.inr (Or.inr rfl)))
      · rcases normFilter_lower_char hmem with h | h
        · rw [h] at hsp; cases hsp
        · rcases h with h | h | h | h
          · exact Or.inl h
          · exact Or.inr (Or.inl h)
          · exact Or.inr (Or.inr (Or.inl h))
          · exact Or.inr (Or.inr (Or.inr (Or.inl h)))
    · rw [hdata]
      refine List.Chain'.imp ?_ (pyStrip_chain _ (collapseWs_chain _))
      intro a b hab
      rintro ⟨rfl, rfl⟩
      exact hab ⟨by decide, by decide⟩
    · intro c hc
      rw [hdata] at hc
      have h1 := pyStrip_head_not_space _ _ hc
      intro h
      subst h
      simp [isPySpace] at h1
    · intro c hc
      rw [hdata] at hc
      have h1 := pyStrip_getLast_not_space _ _ hc
      intro h
      subst h
      simp [isPySpace] at h1

/-- C9 witness: a concrete input exercising transliteration, filtering
and collapsing; plus the empty-input clause. -/
theorem C9_normalize_charset_witness :
    ('a'.isLower = true ∨ 'a'.isDigit = true ∨ 'a' = '_' ∨ 'a' = '-' ∨ 'a' = ' ') ∧
    normalize_string "" = "" :=
  ⟨(C9_normalize_charset "Á  b!").1 'a' (by decide),
   (C9_normalize_charset "").2.2.2.2⟩

/-! ## Claim C2 -/

lemma firstOccur_mem {α : Type} [DecidableEq α] : ∀ (l : List α) (x : α),
    x ∈ firstOccur l ↔ x ∈ l := by
  intro l
  induction l with
  | nil => intro x; simp [firstOccur]
  | cons a as ih =>
    intro x
    by_cases hxa : x = a
    · subst hxa; simp [firstOccur]
    · simp [firstOccur, List.mem_filter, ih, hxa]

lemma firstOccur_nodup {α : Type} [DecidableEq α] : ∀ (l : List α), (firstOccur l).Nodup := by
  intro l
  induction l with
  | nil => simp [firstOccur]
  | cons a as ih =>
    simp only [firstOccur]
    rw [List.nodup_cons]
    refine ⟨?_, ih.filter _⟩
    intro h
    have := List.of_mem_filter h
    simp at this

lemma mkAlbumResult_some {kt : (String × String) × List TrackResult} {a : AlbumResult}
    (h : mkAlbumResult kt = some a) :
    a.username = kt.1.1 ∧ a.album_path = kt.1.2 ∧ a.tracks = kt.2 ∧
      a.track_count = kt.2.length ∧ 2 ≤ kt.2.length := by
  rcases kt with ⟨k, _ | ⟨t1, _ | ⟨t2, g⟩⟩⟩
  · simp [mkAlbumResult] at h
  · simp [mkAlbumResult] at h
  · simp only [mkAlbumResult, Option.some.injEq] at h
    subst h
    refine ⟨rfl, rfl, rfl, rfl, ?_⟩
    simp only [List.length_cons]
    omega

lemma mkAlbumResult_isSome {kt : (String × String) × List TrackResult}
    (h : 2 ≤ kt.2.length) :
    ∃ a, mkAlbumResult kt = some a ∧ a.tracks = kt.2 := by
  rcases kt with ⟨k, _ | ⟨t1, _ | ⟨t2, g⟩⟩⟩
  · simp at h
  · simp at h
  · exact ⟨_, rfl, rfl⟩

lemma album_mem_group {ts : List TrackResult} {a : AlbumResult}
    (h : a ∈ createAlbumResults (albumsByPath ts)) :
    ∃ k : String × String,
      a.username = k.1 ∧ a.album_path = k.2 ∧
      a.tracks = ts.filter (fun t => trackKey t = some k) ∧
      a.track_count = a.tracks.length ∧ 2 ≤ a.tracks.length := by
  obtain ⟨kt, hkt, hmk⟩ := List.mem_filterMap.mp h
  obtain ⟨h1, h2, h3, h4, h5⟩ := mkAlbumResult_some hmk
  simp only [albumsByPath, List.mem_map] at hkt
  obtain ⟨k, hk, hkeq⟩ := hkt
  have e1 : kt.1 = k := by rw [← hkeq]
  have e2 : kt.2 = ts.filter (fun t => trackKey t = some k) := by rw [← hkeq]
  refine ⟨k, ?_, ?_, ?_, ?_, ?_⟩
  · rw [h1, e1]
  · rw [h2, e1]
  · rw [h3, e2]
  · rw [h4, h3]
  · rw [h3]; exact e2 ▸ h5

lemma mem_album_tracks_iff {ts : List TrackResult} {t : TrackResult} :
    t ∈ (createAlbumResults (albumsByPath ts)).flatMap (fun a => a.tracks) ↔
      ∃ k, trackKey t = some k ∧ t ∈ ts ∧
        2 ≤ (ts.filter (fun u => trackKey u = some k)).length := by
  rw [List.mem_flatMap]
  constructor
  · rintro ⟨a, ha, hta⟩
    obtain ⟨k, -, -, htr, -, hlen⟩ := album_mem_group ha
    rw [htr] at hta
    have hm := List.mem_filter.mp hta
    refine ⟨k, ?_, hm.1, ?_⟩
    · simpa using hm.2
    · rwa [htr] at hlen
  · rintro ⟨k, hkey, hts0, hlen⟩
    have hkmem : k ∈ ts.filterMap trackKey := List.mem_filterMap.mpr ⟨t, hts0, hkey⟩
    have habp : (k, ts.filter (fun u => trackKey u = some k)) ∈ albumsByPath ts := by
      simp only [albumsByPath, List.mem_map]
      exact ⟨k, (firstOccur_mem _ _).mpr hkmem, rfl⟩
    obtain ⟨a, hmk, htracks⟩ :=
      @mkAlbumResult_isSome (k, ts.filter (fun u => trackKey u = some k)) hlen
    refine ⟨a, List.mem_filterMap.mpr ⟨_, habp, hmk⟩, ?_⟩
    rw [htracks]
    exact List.mem_filter.mpr ⟨hts0, by simp [hkey]⟩

lemma album_members_nodup {ts : List TrackResult} (hts : ts.Nodup) :
    ((createAlbumResults (albumsByPath ts)).flatMap (fun a => a.tracks)).Nodup := by
  rw [List.nodup_flatMap]
  constructor
  · intro a ha
    obtain ⟨k, -, -, htr, -, -⟩ := album_mem_group ha
    rw [htr]
    exact hts.filter _
  · have hkeys := firstOccur_nodup (ts.filterMap trackKey)
    have hpw : (albumsByPath ts).Pairwise (fun x y => x.2.Disjoint y.2) := by
      unfold albumsByPath
      rw [List.pairwise_map]
      refine List.Pairwise.imp ?_ hkeys
      intro k k' hkk t ht ht'
      have h1 := (List.mem_filter.mp ht).2
      have h2 := (List.mem_filter.mp ht').2
      simp only [decide_eq_true_eq] at h1 h2
      rw [h1] at h2
      exact hkk (Option.some.inj h2)
    show ((albumsByPath ts).filterMap mkAlbumResult).Pairwise _
    refine hpw.filterMap mkAlbumResult ?_
    intro x y hxy a ha b hb
    have hta := (mkAlbumResult_some ha).2.2.1
    have htb := (mkAlbumResult_some hb).2.2.1
    show a.tracks.Disjoint b.tracks
    rw [hta, htb]
    exact hxy

/-- C2 (amended): every emitted AlbumResult has at least two member
tracks, all sharing the album's peer and derived directory path, with
`track_count` equal to the member count; and — provided no two parsed
tracks of the batch share a filename — the individual-track output
together with all album member tracks is a permutation of the full
parsed track set (no duplicates, no omissions, no track in both).  The
filename-uniqueness hypothesis is necessary: the individual-track filter
drops any track whose filename is claimed by an album, even an album of
a different peer. -/
theorem C2_album_partition (rs : List SlskdResponse) :
    (∀ a ∈ (processSearchResponses rs).2,
      2 ≤ a.tracks.length ∧ a.track_count = a.tracks.length ∧
      ∀ t ∈ a.tracks, t.username = a.username ∧
        extractAlbumPath t.filename = some a.album_path) ∧
    (((allParsedTracks rs).map (fun t => t.filename)).Nodup →
      List.Perm ((processSearchResponses rs).1 ++
          (processSearchResponses rs).2.flatMap (fun a => a.tracks))
        (allParsedTracks rs)) := by
  constructor
  · intro a ha
    have ha' : a ∈ createAlbumResults (albumsByPath (allParsedTracks rs)) := ha
    obtain ⟨k, hu, hp, htr, hcnt, hlen⟩ := album_mem_group ha'
    refine ⟨hlen, hcnt, ?_⟩
    intro t ht
    rw [htr] at ht
    have h2 := (List.mem_filter.mp ht).2
    simp only [decide_eq_true_eq] at h2
    rw [trackKey, Option.map_eq_some'] at h2
    obtain ⟨p, hep, hpair⟩ := h2
    constructor
    · rw [hu, ← hpair]
    · rw [hp, ← hpair]; exact hep
  · intro hnd
    have hNodup : (allParsedTracks rs).Nodup := hnd.of_map
    have hinj : ∀ x ∈ allParsedTracks rs, ∀ y ∈ allParsedTracks rs,
        x.filename = y.filename → x = y :=
      fun x hx y hy h => List.inj_on_of_nodup_map hnd hx hy h
    set ts := allParsedTracks rs with hts
    set albums := createAlbumResults (albumsByPath ts) with halb
    set M := albums.flatMap (fun a => a.tracks) with hM
    set F := albums.flatMap (fun a => a.tracks.map (fun t => t.filename)) with hF
    have hMsub : ∀ t ∈ M, t ∈ ts := by
      intro t ht
      rcases mem_album_tracks_iff.mp ht with ⟨k, -, h2, -⟩
      exact h2
    have hFM : ∀ t ∈ ts, (t.filename ∈ F ↔ t ∈ M) := by
      intro t hts0
      constructor
      · intro hf
        obtain ⟨a, ha, hfa⟩ := List.mem_flatMap.mp hf
        obtain ⟨u, hu, hue⟩ := List.mem_map.mp hfa
        have huM : u ∈ M := List.mem_flatMap.mpr ⟨a, ha, hu⟩
        have heq := hinj u (hMsub u huM) t hts0 hue
        rw [← heq]
        exact huM
      · intro hm
        obtain ⟨a, ha, hta⟩ := List.mem_flatMap.mp hm
        exact List.mem_flatMap.mpr ⟨a, ha, List.mem_map.mpr ⟨t, hta, rfl⟩⟩
    have hMnodup : M.Nodup := album_members_nodup hNodup
    show List.Perm ((ts.filter (fun t => decide (t.filename ∉ F))) ++ M) ts
    have hInodup : (ts.filter (fun t => decide (t.filename ∉ F))).Nodup := hNodup.filter _
    have hdisj : List.Disjoint (ts.filter (fun t => decide (t.filename ∉ F))) M := by
      intro t htI htM
      have h2 := (List.mem_filter.mp htI).2
      simp only [decide_eq_true_eq] at h2
      exact h2 ((hFM t (hMsub t htM)).mpr htM)
    rw [List.perm_ext_iff_of_nodup (hInodup.append hMnodup hdisj) hNodup]
    intro t
    rw [List.mem_append]
    constructor
    · rintro (h | h)
      · exact (List.mem_filter.mp h).1
      · exact hMsub t h
    · intro ht
      by_cases hf : t.filename ∈ F
      · exact Or.inr ((hFM t ht).mp hf)
      · exact Or.inl (List.mem_filter.mpr ⟨ht, by simpa using hf⟩)

def c2FileX : SlskdFile := { filename := "dd/x.mp3", size := 7, bitRate := none, length := none }

def c2FileY : SlskdFile := { filename := "dd/y.mp3", size := 8, bitRate := none, length := none }

def c2RespA : SlskdResponse :=
  { username := "aa", freeUploadSlots := 1, uploadSpeed := 0, queueLength := 0,
    files := [c2FileX, c2FileY] }

def c2RespB : SlskdResponse :=
  { username := "bb", freeUploadSlots := 1, uploadSpeed := 0, queueLength := 0,
    files := [c2FileX] }

/-- C2 counterexample: peers "aa" and "bb" both share "dd/x.mp3"; "aa"'s
two files form an album, and "bb"'s lone parsed track is then dropped
from the individual list because its filename is claimed by "aa"'s album
— three tracks are parsed but only two are emitted, so the union is not
the full parsed set. -/
theorem C2_shared_filename_cex :
    (allParsedTracks [c2RespA, c2RespB]).length = 3 ∧
    (processSearchResponses [c2RespA, c2RespB]).1.length = 0 ∧
    ((processSearchResponses [c2RespA, c2RespB]).2.flatMap (fun a => a.tracks)).length = 2 ∧
    ¬ List.Perm ((processSearchResponses [c2RespA, c2RespB]).1 ++
        (processSearchResponses [c2RespA, c2RespB]).2.flatMap (fun a => a.tracks))
      (allParsedTracks [c2RespA, c2RespB]) := by
  refine ⟨by decide, by decide, by decide, ?_⟩
  intro h
  have hlen := h.length_eq
  rw [List.length_append] at hlen
  revert hlen
  decide

def c2wResp : SlskdResponse :=
  { username := "u", freeUploadSlots := 0, uploadSpeed := 0, queueLength := 0,
    files := [{ filename := "al/a.mp3", size := 1, bitRate := none, length := none },
              { filename := "al/b.mp3", size := 2, bitRate := none, length := none },
              { filename := "c.mp3", size := 3, bitRate := none, length := none }] }

/-- C2 witness: one peer with an album of two tracks plus one loose
track, all filenames distinct; the outputs partition the parsed set. -/
theorem C2_album_partition_witness :
    List.Perm ((processSearchResponses [c2wResp]).1 ++
        (processSearchResponses [c2wResp]).2.flatMap (fun a => a.tracks))
      (allParsedTracks [c2wResp]) :=
  (C2_album_partition [c2wResp]).2 (by decide)

/-! ## Claim C5 -/

lemma insertDescBy_mem {α : Type} (key : α → ℚ) (x : α) :
    ∀ (l : List α) (z : α), z ∈ insertDescBy key x l ↔ z = x ∨ z ∈ l := by
  intro l
  induction l with
  | nil => intro z; simp [insertDescBy]
  | cons y ys ih =>
    intro z
    simp only [insertDescBy]
    by_cases h : key y < key x
    · rw [if_pos h]
      simp only [List.mem_cons]
    · rw [if_neg h]
      simp only [List.mem_cons, ih]
      tauto

lemma insertDescBy_pairwise {α : Type} (key : α → ℚ) (x : α) :
    ∀ (l : List α), l.Pairwise (fun a b => key b ≤ key a) →
      (insertDescBy key x l).Pairwise (fun a b => key b ≤ key a) := by
  intro l
  induction l with
  | nil => intro h; simp [insertDescBy]
  | cons y ys ih =>
    intro h
    rw [List.pairwise_cons] at h
    obtain ⟨hy, hys⟩ := h
    simp only [insertDescBy]
    by_cases hcmp : key y < key x
    · rw [if_pos hcmp, List.pairwise_cons]
      constructor
      · intro z hz
        rcases List.mem_cons.mp hz with rfl | hz
        · exact le_of_lt hcmp
        · exact le_trans (hy z hz) (le_of_lt hcmp)
      · rw [List.pairwise_cons]
        exact ⟨hy, hys⟩
    · rw [if_neg hcmp, List.pairwise_cons]
      constructor
      · intro z hz
        rcases (insertDescBy_mem key x ys z).mp hz with rfl | hz
        · exact le_of_not_lt hcmp
        · exact hy z hz
      · exact ih hys

lemma sortDescBy_pairwise {α : Type} (key : α → ℚ) (l : List α) :
    (sortDescBy key l).Pairwise (fun a b => key b ≤ key a) := by
  induction l with
  | nil => simp [sortDescBy]
  | cons x xs ih => exact insertDescBy_pairwise key x _ ih

/-- One generalized invariant for the poll loop: the number of polls is
bounded by the fuel; an event reporting 30 or more responses is the last
event emitted and was emitted by the final poll; and every event carries
track and album lists sorted by non-increasing quality score. -/
lemma searchGo_spec :
    ∀ (fuel idx : Nat) (polls : List (Option (List SlskdResponse))) (s : SearchState),
      (searchGo fuel idx polls s).2.2 ≤ fuel ∧
      (∀ e ∈ (searchGo fuel idx polls s).2.1, 30 ≤ e.responseCount →
        (searchGo fuel idx polls s).2.1.getLast? = some e ∧
        e.pollIdx = idx + (searchGo fuel idx polls s).2.2 - 1) ∧
      (∀ e ∈ (searchGo fuel idx polls s).2.1,
        e.tracks.Pairwise (fun x y => TrackResult.quality_score y ≤ TrackResult.quality_score x) ∧
        e.albums.Pairwise (fun x y => AlbumResult.quality_score y ≤ AlbumResult.quality_score x)) := by
  intro fuel
  induction fuel with
  | zero =>
    intro idx polls s
    refine ⟨Nat.le_refl 0, ?_, ?_⟩
    · intro e he _
      simp [searchGo] at he
    · intro e he
      simp [searchGo] at he
  | succ n ih =>
    intro idx polls s
    cases hrd : polls.headD none with
    | none =>
      obtain ⟨ih1, ih2, ih3⟩ := ih (idx + 1) polls.tail s
      have h1 : (searchGo (n + 1) idx polls s).2.1 =
          (searchGo n (idx + 1) polls.tail s).2.1 := by
        simp only [searchGo, hrd]
      have h2 : (searchGo (n + 1) idx polls s).2.2 =
          (searchGo n (idx + 1) polls.tail s).2.2 + 1 := by
        simp only [searchGo, hrd]
      rw [h1, h2]
      refine ⟨by omega, ?_, ih3⟩
      intro e he h30
      obtain ⟨ha, hb⟩ := ih2 e he h30
      exact ⟨ha, by omega⟩
    | some rs =>
      by_cases hlt : s.allResponses.length < rs.length
      · by_cases h30 : 30 ≤ rs.length
        · have h1 : (searchGo (n + 1) idx polls s).2.1 =
              [⟨idx,
                sortDescBy TrackResult.quality_score
                  (s.allTracks ++ (processSearchResponses (rs.drop s.allResponses.length)).1),
                sortDescBy AlbumResult.quality_score
                  (s.allAlbums ++ (processSearchResponses (rs.drop s.allResponses.length)).2),
                rs.length⟩] := by
            simp only [searchGo, hrd]
            rw [if_pos hlt, if_pos h30]
          have h2 : (searchGo (n + 1) idx polls s).2.2 = 1 := by
            simp only [searchGo, hrd]
            rw [if_pos hlt, if_pos h30]
          rw [h1, h2]
          refine ⟨by omega, ?_, ?_⟩
          · intro e he _
            rw [List.mem_singleton] at he
            subst he
            refine ⟨rfl, ?_⟩
            show idx = idx + 1 - 1
            omega
          · intro e he
            rw [List.mem_singleton] at he
            subst he
            exact ⟨sortDescBy_pairwise _ _, sortDescBy_pairwise _ _⟩
        · obtain ⟨ih1, ih2, ih3⟩ := ih (idx + 1) polls.tail
            ⟨rs,
              sortDescBy TrackResult.quality_score
                (s.allTracks ++ (processSearchResponses (rs.drop s.allResponses.length)).1),
              sortDescBy AlbumResult.quality_score
                (s.allAlbums ++ (processSearchResponses (rs.drop s.allResponses.length)).2)⟩
          have h1 : (searchGo (n + 1) idx polls s).2.1 =
              (⟨idx,
                sortDescBy TrackResult.quality_score
                  (s.allTracks ++ (processSearchResponses (rs.drop s.allResponses.length)).1),
                sortDescBy AlbumResult.quality_score
                  (s.allAlbums ++ (processSearchResponses (rs.drop s.allResponses.length)).2),
                rs.length⟩ : ProgressEvent) ::
              (searchGo n (idx + 1) polls.tail
                ⟨rs,
                  sortDescBy TrackResult.quality_score
                    (s.allTracks ++ (processSearchResponses (rs.drop s.allResponses.length)).1),
                  sortDescBy AlbumResult.quality_score
                    (s.allAlbums ++ (processSearchResponses (rs.drop s.allResponses.length)).2)⟩).2.1 := by
            simp only [searchGo, hrd]
            rw [if_pos hlt, if_neg h30]
          have h2 : (searchGo (n + 1) idx polls s).2.2 =
              (searchGo n (idx + 1) polls.tail
                ⟨rs,
                  sortDescBy TrackResult.quality_score
                    (s.allTracks ++ (processSearchResponses (rs.drop s.allResponses.length)).1),
                  sortDescBy AlbumResult.quality_score
                    (s.allAlbums ++ (processSearchResponses (rs.drop s.allResponses.length)).2)⟩).2.2 + 1 := by
            simp only [searchGo, hrd]
            rw [if_pos hlt, if_neg h30]
          rw [h1, h2]
          refine ⟨by omega, ?_, ?_⟩
          · intro e he h30e
            rcases List.mem_cons.mp he with rfl | he
            · exact absurd h30e h30
            · obtain ⟨ha, hb⟩ := ih2 e he h30e
              refine ⟨?_, by omega⟩
              rcases hR : (searchGo n (idx + 1) polls.tail
                  ⟨rs,
                    sortDescBy TrackResult.quality_score
                      (s.allTracks ++ (processSearchResponses (rs.drop s.allResponses.length)).1),
                    sortDescBy AlbumResult.quality_score
                      (s.allAlbums ++
                        (processSearchResponses (rs.drop s.allResponses.length)).2)⟩).2.1 with
                _ | ⟨b, t⟩
              · rw [hR] at he
                cases he
              · rw [List.getLast?_cons_cons]
                rw [hR] at ha
                exact ha
          · intro e he
            rcases List.mem_cons.mp he with rfl | he
            · exact ⟨sortDescBy_pairwise _ _, sortDescBy_pairwise _ _⟩
            · exact ih3 e he
      · obtain ⟨ih1, ih2, ih3⟩ := ih (idx + 1) polls.tail s
        have h1 : (searchGo (n + 1) idx polls s).2.1 =
            (searchGo n (idx + 1) polls.tail s).2.1 := by
          simp only [searchGo, hrd]
          rw [if_neg hlt]
        have h2 : (searchGo (n + 1) idx polls s).2.2 =
            (searchGo n (idx + 1) polls.tail s).2.2 + 1 := by
          simp only [searchGo, hrd]
          rw [if_neg hlt]
        rw [h1, h2]
        refine ⟨by omega, ?_, ih3⟩
        intro e he h30
        obtain ⟨ha, hb⟩ := ih2 e he h30
        exact ⟨ha, by omega⟩

/-- C5: in every run of the progressive search loop, at most
`⌊timeout / 1.5⌋` polls are issued; an event whose cumulative response
count has reached 30 is the last progress event and is emitted by the
final poll (the loop terminates there, with no further polling); and at
every progress-callback invocation both cumulative lists are sorted in
non-increasing quality_score order. -/
theorem C5_progressive_search (timeout : Nat) (polls : List (Option (List SlskdResponse))) :
    (runSearch timeout polls).2.2 ≤ maxPolls timeout ∧
    (∀ e ∈ (runSearch timeout polls).2.1, 30 ≤ e.responseCount →
      (runSearch timeout polls).2.1.getLast? = some e ∧
      e.pollIdx = (runSearch timeout polls).2.2) ∧
    (∀ e ∈ (runSearch timeout polls).2.1,
      e.tracks.Pairwise (fun x y => TrackResult.quality_score y ≤ TrackResult.quality_score x) ∧
      e.albums.Pairwise (fun x y => AlbumResult.quality_score y ≤ AlbumResult.quality_score x)) := by
  have hrun : runSearch timeout polls = searchGo (maxPolls timeout) 1 polls ⟨[], [], []⟩ := rfl
  rw [hrun]
  obtain ⟨h1, h2, h3⟩ := searchGo_spec (maxPolls timeout) 1 polls ⟨[], [], []⟩
  refine ⟨h1, ?_, h3⟩
  intro e he h30
  obtain ⟨ha, hb⟩ := h2 e he h30
  exact ⟨ha, by omega⟩

def c5Resp : SlskdResponse :=
  { username := "u", freeUploadSlots := 0, uploadSpeed := 0, queueLength := 0, files := [] }

def c5Polls : List (Option (List SlskdResponse)) := [some (List.replicate 30 c5Resp)]

def c5Event : ProgressEvent := { pollIdx := 1, tracks := [], albums := [], responseCount := 30 }

/-- C5 witness: a single poll returning 30 responses makes the loop emit
one event and stop after that very poll. -/
theorem C5_progressive_search_witness :
    (runSearch 3 c5Polls).2.1.getLast? = some c5Event ∧
    c5Event.pollIdx = (runSearch 3 c5Polls).2.2 :=
  (C5_progressive_search 3 c5Polls).2.1 c5Event (by decide) (by decide)
